import Mathlib

/-!
Verification of the SNE repository (gMLP interaction-prediction training
scripts) against its natural-language specification.

The embedding models the two source files:

* `src/utils.py` — the `GMLPDataLoader` batched graph sampler and the
  `get_dataset` CSV-to-graph constructor;
* `src/train_gmlp.py` — the three pairwise loss functions and the
  `train_model` epoch/batch loop.

Conventions of the shallow embedding:

* Float tensors are modelled over `ℚ`; an `r × c` tensor is a function
  `Fin r → Fin c → ℚ`, so squareness of a matrix is enforced by its type.
* `torch.randperm(n)` is modelled by an oracle permutation
  `σ : Equiv.Perm (Fin n)`; the list it returns is `List.ofFn (σ ·)`.
  Each iteration step of the loader consumes one fresh oracle value.
* The transcendental primitives `torch.exp` / `torch.log` used by
  `NContrastLoss` are abstracted as an oracle `TorchPrims` record, since
  they have no executable counterpart on `ℚ`; every theorem about the
  training loop is universally quantified over the oracle.
* Python methods that could mutate `self` are modelled in state-passing
  style, returning the (possibly updated) object next to their result, so
  that "does not modify" is a provable equation rather than a convention.
* Fallible Python code (a `list.index` lookup that can raise `ValueError`)
  is modelled with `Except`, the error propagating to the caller.
-/

/-- A `torch_geometric.data.Data` graph as consumed by `GMLPDataLoader`:
`n` nodes carrying `m`-dimensional float features, and an edge list
(`edge_index`, given column-wise as source/target pairs).  Indices are
`Fin n` because `torch.sparse_coo_tensor` with shape `(n, n)` requires
in-range indices. -/
structure Data where
  n : ℕ
  m : ℕ
  x : Fin n → Fin m → ℚ
  edge_index : List (Fin n × Fin n)

/-- `torch.sparse_coo_tensor(edge_index, ones, (n, n)).to_dense()`:
entry `(i, j)` is the number of occurrences of the edge `(i, j)` in the
edge list (duplicate coordinates are summed by the COO constructor). -/
def sparseToDense (d : Data) : Fin d.n → Fin d.n → ℚ :=
  fun i j => (d.edge_index.count (i, j) : ℚ)

/-- `torch.logical_or(y, y.T).type(torch.float32)`: boolean OR of a dense
matrix with its transpose, cast back to float. -/
def logicalOrTranspose {n : ℕ} (y : Fin n → Fin n → ℚ) : Fin n → Fin n → ℚ :=
  fun i j => if y i j ≠ 0 ∨ y j i ≠ 0 then 1 else 0

/-- `y.fill_diagonal_(1.)`. -/
def fillDiagonalOne {n : ℕ} (y : Fin n → Fin n → ℚ) : Fin n → Fin n → ℚ :=
  fun i j => if i = j then 1 else y i j

/-- The state of a `GMLPDataLoader` object after `__init__`. -/
structure GMLPDataLoader where
  n : ℕ
  m : ℕ
  x : Fin n → Fin m → ℚ
  y : Fin n → Fin n → ℚ
  batch_size : ℕ
  shuffle : Bool
  drop_last : Bool
  sample_num : ℕ

/-- `GMLPDataLoader.__init__` (src/utils.py lines 15–33): stores the float
feature matrix, builds the dense adjacency from the sparse edge list
(symmetric closure by `logical_or` with the transpose, then
`fill_diagonal_(1.)`), and computes `sample_num` as floor resp. ceiling
division of the node count by the batch size. -/
def GMLPDataLoader.init (data : Data) (batch_size : ℕ)
    (shuffle : Bool := false) (drop_last : Bool := false) : GMLPDataLoader :=
  { n := data.n
    m := data.m
    x := data.x
    y := fillDiagonalOne (logicalOrTranspose (sparseToDense data))
    batch_size := batch_size
    shuffle := shuffle
    drop_last := drop_last
    sample_num :=
      if drop_last then data.n / batch_size
      else (data.n + batch_size - 1) / batch_size }

/-- `torch.randperm(n)` under the oracle permutation `σ`: the list
`[σ 0, σ 1, …, σ (n-1)]`. -/
def randperm (n : ℕ) (σ : Equiv.Perm (Fin n)) : List (Fin n) :=
  List.ofFn (fun i => σ i)

/-- `torch.randperm(len(self.x))[:self.batch_size]` (line 37). -/
def GMLPDataLoader.random_index (l : GMLPDataLoader)
    (σ : Equiv.Perm (Fin l.n)) : List (Fin l.n) :=
  (randperm l.n σ).take l.batch_size

/-- `self.x[random_index]` (line 38): the selected feature rows. -/
def GMLPDataLoader.x_batch (l : GMLPDataLoader) (idx : List (Fin l.n)) :
    List (List ℚ) :=
  idx.map (fun i => List.ofFn (l.x i))

/-- `self.y[random_index, :][:, random_index]` (line 39): the induced
sub-adjacency. -/
def GMLPDataLoader.y_batch (l : GMLPDataLoader) (idx : List (Fin l.n)) :
    List (List ℚ) :=
  idx.map (fun i => idx.map (fun j => l.y i j))

/-- One step of `__iter__` (lines 36–40), in state-passing style: the
yielded `(x_batch, y_batch)` pair together with the loader object after
the step (the body only reads `self`). -/
def GMLPDataLoader.iter_step (l : GMLPDataLoader) (σ : Equiv.Perm (Fin l.n)) :
    (List (List ℚ) × List (List ℚ)) × GMLPDataLoader :=
  let idx := l.random_index σ
  ((l.x_batch idx, l.y_batch idx), l)

/-- A full pass of `__iter__`: `sample_num` yields, step `t` drawing the
fresh oracle permutation `σs t`. -/
def GMLPDataLoader.epoch (l : GMLPDataLoader)
    (σs : ℕ → Equiv.Perm (Fin l.n)) :
    List (List (List ℚ) × List (List ℚ)) :=
  (List.range l.sample_num).map (fun t => (l.iter_step (σs t)).1)

/-- `__len__` (lines 42–43), in state-passing style. -/
def GMLPDataLoader.len (l : GMLPDataLoader) : ℕ × GMLPDataLoader :=
  (l.sample_num, l)

/-! ### Helper lemmas on the constructed adjacency -/

lemma fillDiagonalOne_diag {n : ℕ} (y : Fin n → Fin n → ℚ) (i : Fin n) :
    fillDiagonalOne y i i = 1 := by
  simp [fillDiagonalOne]

lemma logicalOrTranspose_symm {n : ℕ} (y : Fin n → Fin n → ℚ) (i j : Fin n) :
    logicalOrTranspose y i j = logicalOrTranspose y j i := by
  simp only [logicalOrTranspose]
  exact if_congr or_comm rfl rfl

lemma fillDiagonalOne_logicalOrTranspose_symm {n : ℕ}
    (y : Fin n → Fin n → ℚ) (i j : Fin n) :
    fillDiagonalOne (logicalOrTranspose y) i j =
      fillDiagonalOne (logicalOrTranspose y) j i := by
  by_cases h : i = j
  · subst h; rfl
  · have hji : ¬ j = i := fun hji => h hji.symm
    simp only [fillDiagonalOne, if_neg h, if_neg hji]
    exact logicalOrTranspose_symm y i j

lemma fillDiagonalOne_logicalOrTranspose_binary {n : ℕ}
    (y : Fin n → Fin n → ℚ) (i j : Fin n) :
    fillDiagonalOne (logicalOrTranspose y) i j = 0 ∨
      fillDiagonalOne (logicalOrTranspose y) i j = 1 := by
  by_cases h : i = j
  · right; subst h; exact fillDiagonalOne_diag _ i
  · simp only [fillDiagonalOne, if_neg h, logicalOrTranspose]
    by_cases hc : y i j ≠ 0 ∨ y j i ≠ 0
    · right; simp [hc]
    · left; simp [hc]

/-- C1: the adjacency built by `GMLPDataLoader.__init__` is square
(its type is `Fin n → Fin n → ℚ`, node-count by node-count), binary,
symmetric, and has every diagonal entry equal to 1; it is computed once by
the constructor, and neither `__iter__` nor `__len__` modifies the loader
object (state-passing form: they return `self` unchanged). -/
theorem C1_adjacency_square_binary_symmetric_unit_diagonal
    (data : Data) (batch_size : ℕ) (shuffle drop_last : Bool) :
    (∀ i j, (GMLPDataLoader.init data batch_size shuffle drop_last).y i j = 0 ∨
        (GMLPDataLoader.init data batch_size shuffle drop_last).y i j = 1) ∧
    (∀ i j, (GMLPDataLoader.init data batch_size shuffle drop_last).y i j =
        (GMLPDataLoader.init data batch_size shuffle drop_last).y j i) ∧
    (∀ i, (GMLPDataLoader.init data batch_size shuffle drop_last).y i i = 1) ∧
    (∀ σ, ((GMLPDataLoader.init data batch_size shuffle drop_last).iter_step σ).2 =
        GMLPDataLoader.init data batch_size shuffle drop_last) ∧
    ((GMLPDataLoader.init data batch_size shuffle drop_last).len.2 =
        GMLPDataLoader.init data batch_size shuffle drop_last) := by
  refine ⟨?_, ?_, ?_, fun σ => rfl, rfl⟩
  · intro i j
    exact fillDiagonalOne_logicalOrTranspose_binary _ i j
  · intro i j
    exact fillDiagonalOne_logicalOrTranspose_symm _ i j
  · intro i
    exact fillDiagonalOne_diag _ i

/-! ### Epoch length (C3, C8) -/

lemma add_pred_div_eq_ceil (n b : ℕ) (hb : 0 < b) :
    ((n + b - 1) / b : ℕ) = ⌈(n : ℚ) / (b : ℚ)⌉₊ := by
  have hb' : (0 : ℚ) < (b : ℚ) := by exact_mod_cast hb
  rcases n with _ | m
  · have h1 : (b - 1) / b = 0 := Nat.div_eq_of_lt (by omega)
    simp [h1]
  · have hkey : (m + 1 + b - 1) / b = m / b + 1 := by
      have h2 : m + 1 + b - 1 = m + b := by omega
      rw [h2, Nat.add_div_right m hb]
    rw [hkey]
    symm
    rw [Nat.ceil_eq_iff (Nat.succ_ne_zero (m / b))]
    constructor
    · have h3 : m / b + 1 - 1 = m / b := Nat.add_sub_cancel (m / b) 1
      rw [h3, lt_div_iff₀ hb']
      exact_mod_cast Nat.lt_succ_of_le (Nat.div_mul_le_self m b)
    · rw [div_le_iff₀ hb']
      have h1 := Nat.div_add_mod m b
      have h2 := Nat.mod_lt m hb
      have h4 : m + 1 ≤ (m / b + 1) * b := by
        have h3 : (m / b + 1) * b = b * (m / b) + b := by ring
        omega
      exact_mod_cast h4

/-- C3: per epoch the loader yields `sample_num` pairs, `__len__` returns
the same number, and this number is `⌊n / batch_size⌋` when `drop_last` is
set and `⌈n / batch_size⌉` otherwise (`batch_size > 0`, since Python
raises `ZeroDivisionError` on a zero batch size). -/
theorem C3_yields_per_epoch_floor_or_ceil
    (data : Data) (batch_size : ℕ) (shuffle drop_last : Bool)
    (hb : 0 < batch_size) (σs : ℕ → Equiv.Perm (Fin data.n)) :
    ((GMLPDataLoader.init data batch_size shuffle drop_last).epoch σs).length =
      (GMLPDataLoader.init data batch_size shuffle drop_last).len.1 ∧
    (GMLPDataLoader.init data batch_size shuffle drop_last).len.1 =
      (if drop_last then ⌊(data.n : ℚ) / (batch_size : ℚ)⌋₊
       else ⌈(data.n : ℚ) / (batch_size : ℚ)⌉₊) := by
  constructor
  · simp [GMLPDataLoader.epoch, GMLPDataLoader.len]
  · show (if drop_last then data.n / batch_size
        else (data.n + batch_size - 1) / batch_size) = _
    rcases drop_last with _ | _
    · simp only [Bool.false_eq_true, if_false]
      exact add_pred_div_eq_ceil data.n batch_size hb
    · simp only [if_true]
      exact (Nat.floor_div_eq_div data.n batch_size).symm

/-- Witness for C3 at a concrete loader: 3 nodes, batch size 2. -/
theorem C3_yields_per_epoch_floor_or_ceil_witness :
    0 < 2 ∧
    ((GMLPDataLoader.init ⟨3, 0, fun _ _ => 0, []⟩ 2 false false).epoch
        (fun _ => 1)).length =
      (GMLPDataLoader.init ⟨3, 0, fun _ _ => 0, []⟩ 2 false false).len.1 ∧
    (GMLPDataLoader.init ⟨3, 0, fun _ _ => 0, []⟩ 2 false false).len.1 =
      (if false then ⌊(3 : ℚ) / (2 : ℚ)⌋₊ else ⌈(3 : ℚ) / (2 : ℚ)⌉₊) :=
  ⟨by decide,
   (C3_yields_per_epoch_floor_or_ceil ⟨3, 0, fun _ _ => 0, []⟩ 2 false false
      (by decide) (fun _ => 1)).1,
   (C3_yields_per_epoch_floor_or_ceil ⟨3, 0, fun _ _ => 0, []⟩ 2 false false
      (by decide) (fun _ => 1)).2⟩

/-- C8: the `shuffle` flag is stored by `__init__` but never read again:
two loaders differing only in `shuffle` yield the same batches under every
randomness oracle (hence the same distribution of batches), report the
same `__len__`, and produce the same number of yields per epoch. -/
theorem C8_shuffle_flag_has_no_effect
    (data : Data) (batch_size : ℕ) (drop_last : Bool)
    (σs : ℕ → Equiv.Perm (Fin data.n)) :
    (GMLPDataLoader.init data batch_size true drop_last).epoch σs =
      (GMLPDataLoader.init data batch_size false drop_last).epoch σs ∧
    (GMLPDataLoader.init data batch_size true drop_last).len.1 =
      (GMLPDataLoader.init data batch_size false drop_last).len.1 ∧
    (∀ σ, ((GMLPDataLoader.init data batch_size true drop_last).iter_step σ).1 =
      ((GMLPDataLoader.init data batch_size false drop_last).iter_step σ).1) ∧
    (GMLPDataLoader.init data batch_size true drop_last).shuffle = true ∧
    (GMLPDataLoader.init data batch_size false drop_last).shuffle = false :=
  ⟨rfl, rfl, fun _ => rfl, rfl, rfl⟩

/-! ### Batch index sampling (C2, C5, C10) -/

/-- The set of node indices drawn by one `__iter__` step: the first
`batch_size` entries of the random permutation. -/
def batchIndexSet (n b : ℕ) (σ : Equiv.Perm (Fin n)) : Finset (Fin n) :=
  ((randperm n σ).take b).toFinset

/-- How many of the `n!` equally likely outcomes of `torch.randperm(n)`
make one `__iter__` step draw exactly the index set `S`. -/
def drawCount (n b : ℕ) (S : Finset (Fin n)) : ℕ :=
  (Finset.univ.filter
    (fun σ : Equiv.Perm (Fin n) => batchIndexSet n b σ = S)).card

lemma randperm_nodup (n : ℕ) (σ : Equiv.Perm (Fin n)) :
    (randperm n σ).Nodup :=
  List.nodup_ofFn.mpr σ.injective

lemma random_index_length (data : Data) (batch_size : ℕ)
    (shuffle drop_last : Bool) (σ : Equiv.Perm (Fin data.n)) :
    ((GMLPDataLoader.init data batch_size shuffle drop_last).random_index
      σ).length = min batch_size data.n := by
  simp [GMLPDataLoader.random_index, GMLPDataLoader.init, randperm]

lemma random_index_nodup (data : Data) (batch_size : ℕ)
    (shuffle drop_last : Bool) (σ : Equiv.Perm (Fin data.n)) :
    ((GMLPDataLoader.init data batch_size shuffle drop_last).random_index
      σ).Nodup :=
  (List.take_sublist _ _).nodup (randperm_nodup data.n σ)

/-- Any two equinumerous subsets of the nodes are images of one another
under some permutation of the nodes. -/
lemma exists_perm_image (n : ℕ) (S T : Finset (Fin n))
    (h : S.card = T.card) : ∃ τ : Equiv.Perm (Fin n), S.image τ = T := by
  have hc : Sᶜ.card = Tᶜ.card := by
    rw [Finset.card_compl, Finset.card_compl, h]
  let e1 : {x // x ∈ S} ≃ {x // x ∈ T} := Finset.equivOfCardEq h
  let e2 : {x // x ∈ Sᶜ} ≃ {x // x ∈ Tᶜ} := Finset.equivOfCardEq hc
  let eS : {x // ¬ x ∈ S} ≃ {x // x ∈ Sᶜ} :=
    Equiv.subtypeEquivRight (fun x => (Finset.mem_compl (s := S)).symm)
  let eT : {x // ¬ x ∈ T} ≃ {x // x ∈ Tᶜ} :=
    Equiv.subtypeEquivRight (fun x => (Finset.mem_compl (s := T)).symm)
  let τ : Equiv.Perm (Fin n) :=
    (Equiv.sumCompl (fun x => x ∈ S)).symm.trans
      ((e1.sumCongr (eS.trans (e2.trans eT.symm))).trans
        (Equiv.sumCompl (fun x => x ∈ T)))
  refine ⟨τ, ?_⟩
  have hτ : ∀ x, ∀ hx : x ∈ S, τ x ∈ T := by
    intro x hx
    have hval : τ x = (e1 ⟨x, hx⟩ : {x // x ∈ T}).val := by
      simp only [τ, Equiv.trans_apply]
      rw [Equiv.sumCompl_apply_symm_of_pos _ _ hx]
      rfl
    rw [hval]
    exact (e1 ⟨x, hx⟩).2
  apply Finset.eq_of_subset_of_card_le
  · intro y hy
    rw [Finset.mem_image] at hy
    obtain ⟨x, hx, rfl⟩ := hy
    exact hτ x hx
  · rw [Finset.card_image_of_injective S τ.injective, h]

lemma toFinset_map_eq_image {α β : Type} [DecidableEq α] [DecidableEq β]
    (f : α → β) (l : List α) : (l.map f).toFinset = l.toFinset.image f := by
  induction l with
  | nil => simp
  | cons a l ih => simp [ih]

lemma batchIndexSet_mulLeft (n b : ℕ) (τ σ : Equiv.Perm (Fin n)) :
    batchIndexSet n b (τ * σ) = (batchIndexSet n b σ).image τ := by
  unfold batchIndexSet randperm
  have h1 : (fun i => (τ * σ) i) = (fun x => τ x) ∘ (fun i => σ i) := rfl
  rw [h1, ← List.map_ofFn, ← List.map_take, toFinset_map_eq_image]

/-- Uniformity: every index set of the right size is drawn by the same
number of permutation outcomes, hence with the same probability under the
uniform `torch.randperm`. -/
lemma drawCount_eq_of_card_eq (n b : ℕ) (S T : Finset (Fin n))
    (h : S.card = T.card) : drawCount n b S = drawCount n b T := by
  obtain ⟨τ, hτ⟩ := exists_perm_image n S T h
  unfold drawCount
  refine Finset.card_equiv (Equiv.mulLeft τ) (fun σ => ?_)
  simp only [Finset.mem_filter, Finset.mem_univ, true_and,
    Equiv.coe_mulLeft]
  rw [batchIndexSet_mulLeft]
  constructor
  · rintro rfl
    exact hτ
  · intro h2
    apply Finset.image_injective τ.injective
    rw [h2, hτ]

/-- C2 counterexample: with 1 node and batch size 2 the drawn index list —
and hence the yielded feature submatrix — has 1 row, not
`batch_size = 2` rows, refuting "size exactly batch_size" as stated. -/
theorem C2_counterexample_batch_smaller_than_batch_size :
    ((GMLPDataLoader.init ⟨1, 0, fun _ _ => 0, []⟩ 2 false false).iter_step
        1).1.1.length ≠ 2 := by
  decide

/-- C2 (amended: the drawn index subset has size `min batch_size n`, which
is `batch_size` whenever `batch_size ≤ n`): each `__iter__` step draws a
set of pairwise-distinct indices of size `min batch_size n`, every index
set of that size is drawn by equally many outcomes of the uniform
`torch.randperm` (so the drawn subset is uniform), and the step yields the
pair (feature rows at the drawn indices, adjacency submatrix induced by
the drawn indices on rows and columns). -/
theorem C2_iter_draws_uniform_distinct_min_batch
    (data : Data) (batch_size : ℕ) (shuffle drop_last : Bool)
    (σ : Equiv.Perm (Fin data.n)) :
    ((GMLPDataLoader.init data batch_size shuffle drop_last).random_index
        σ).length = min batch_size data.n ∧
    ((GMLPDataLoader.init data batch_size shuffle drop_last).random_index
        σ).Nodup ∧
    ((GMLPDataLoader.init data batch_size shuffle drop_last).iter_step σ).1 =
      ((GMLPDataLoader.init data batch_size shuffle drop_last).x_batch
        ((GMLPDataLoader.init data batch_size shuffle drop_last).random_index σ),
       (GMLPDataLoader.init data batch_size shuffle drop_last).y_batch
        ((GMLPDataLoader.init data batch_size shuffle drop_last).random_index σ)) ∧
    ∀ S T : Finset (Fin data.n), S.card = min batch_size data.n →
      T.card = min batch_size data.n →
      drawCount data.n batch_size S = drawCount data.n batch_size T :=
  ⟨random_index_length data batch_size shuffle drop_last σ,
   random_index_nodup data batch_size shuffle drop_last σ,
   rfl,
   fun S T hS hT =>
     drawCount_eq_of_card_eq data.n batch_size S T (hS.trans hT.symm)⟩

/-- Witness for C2 at 2 nodes, batch size 1: the singleton index sets
`{0}` and `{1}` are drawn by equally many permutation outcomes. -/
theorem C2_iter_draws_uniform_distinct_min_batch_witness :
    ({0} : Finset (Fin 2)).card = min 1 2 ∧
    ({1} : Finset (Fin 2)).card = min 1 2 ∧
    drawCount 2 1 {0} = drawCount 2 1 {1} :=
  ⟨by decide, by decide,
   (C2_iter_draws_uniform_distinct_min_batch ⟨2, 0, fun _ _ => 0, []⟩ 1
      false false 1).2.2.2 {0} {1} (by decide) (by decide)⟩

/-- C10 counterexample: with 0 nodes and batch size 1 (> node count), and
`drop_last = False`, the loader yields 0 batches per epoch, not exactly
one. -/
theorem C10_counterexample_empty_dataset :
    ((GMLPDataLoader.init ⟨0, 0, fun _ _ => 0, []⟩ 1 false false).epoch
        (fun _ => 1)).length ≠ 1 := by
  decide

/-- C10 (amended: additionally requires at least one node, since with
`n = 0` the loader yields zero batches): when `batch_size > n ≥ 1`, the
drawn index list is the whole random permutation, so each yielded batch
has exactly `n` rows — every node appears, in permutation order — and
with `drop_last = False` the epoch consists of exactly one such batch. -/
theorem C10_oversized_batch_yields_all_nodes_once
    (data : Data) (batch_size : ℕ) (shuffle : Bool)
    (σ : Equiv.Perm (Fin data.n)) (σs : ℕ → Equiv.Perm (Fin data.n))
    (hn : 0 < data.n) (hb : data.n < batch_size) :
    ((GMLPDataLoader.init data batch_size shuffle false).random_index σ) =
      randperm data.n σ ∧
    ((GMLPDataLoader.init data batch_size shuffle false).random_index
        σ).length = data.n ∧
    (∀ i : Fin data.n,
      i ∈ (GMLPDataLoader.init data batch_size shuffle false).random_index σ) ∧
    (((GMLPDataLoader.init data batch_size shuffle false).iter_step
        σ).1.1).length = data.n ∧
    ((GMLPDataLoader.init data batch_size shuffle false).epoch σs).length = 1 := by
  have h1 : ((GMLPDataLoader.init data batch_size shuffle false).random_index σ) =
      randperm data.n σ := by
    show (randperm data.n σ).take batch_size = randperm data.n σ
    apply List.take_of_length_le
    simp only [randperm, List.length_ofFn]
    omega
  refine ⟨h1, ?_, ?_, ?_, ?_⟩
  · rw [h1]
    simp [randperm]
  · intro i
    rw [h1]
    unfold randperm
    rw [List.mem_ofFn]
    exact ⟨σ.symm i, σ.apply_symm_apply i⟩
  · show ((GMLPDataLoader.init data batch_size shuffle false).x_batch
        ((GMLPDataLoader.init data batch_size shuffle false).random_index σ)).length = data.n
    rw [GMLPDataLoader.x_batch, List.length_map, h1]
    simp [randperm]
  · simp only [GMLPDataLoader.epoch, List.length_map, List.length_range]
    show (if false = true then data.n / batch_size
      else (data.n + batch_size - 1) / batch_size) = 1
    simp only [Bool.false_eq_true, if_false]
    exact Nat.div_eq_of_lt_le (by omega) (by omega)

/-- Witness for C10 at 1 node, batch size 2. -/
theorem C10_oversized_batch_yields_all_nodes_once_witness :
    0 < 1 ∧ 1 < 2 ∧
    ((GMLPDataLoader.init ⟨1, 0, fun _ _ => 0, []⟩ 2 false false).epoch
        (fun _ => 1)).length = 1 :=
  ⟨by decide, by decide,
   (C10_oversized_batch_yields_all_nodes_once ⟨1, 0, fun _ _ => 0, []⟩ 2
      false 1 (fun _ => 1) (by decide) (by decide)).2.2.2.2⟩

/-! ### Entries of the yielded target submatrix (C5) -/

/-- Entry `(a, b)` of a matrix represented as a list of rows (defaulting
out-of-range reads to 0; the theorems only use in-range positions). -/
def entry (m : List (List ℚ)) (a b : ℕ) : ℚ :=
  (m.getD a []).getD b 0

lemma y_batch_entry (l : GMLPDataLoader) (idx : List (Fin l.n)) (a b : ℕ)
    (ha : a < idx.length) (hb : b < idx.length) :
    entry (l.y_batch idx) a b = l.y (idx.get ⟨a, ha⟩) (idx.get ⟨b, hb⟩) := by
  unfold entry GMLPDataLoader.y_batch
  have ha' : a < (idx.map (fun i => idx.map (fun j => l.y i j))).length := by
    simpa using ha
  rw [List.getD_eq_getElem _ _ ha', List.getElem_map]
  have hb' : b < (idx.map (fun j => l.y (idx[a]) j)).length := by
    simpa using hb
  rw [List.getD_eq_getElem _ _ hb', List.getElem_map]
  simp [List.get_eq_getElem]

/-- C5: every target matrix `y_batch` yielded by `__iter__` is symmetric
with every diagonal entry equal to 1, inherited from the full adjacency
through the induced-submatrix indexing. -/
theorem C5_y_batch_symmetric_unit_diagonal
    (data : Data) (batch_size : ℕ) (shuffle drop_last : Bool)
    (σ : Equiv.Perm (Fin data.n)) (a b : ℕ)
    (ha : a < ((GMLPDataLoader.init data batch_size shuffle
        drop_last).random_index σ).length)
    (hb : b < ((GMLPDataLoader.init data batch_size shuffle
        drop_last).random_index σ).length) :
    entry ((GMLPDataLoader.init data batch_size shuffle drop_last).y_batch
        ((GMLPDataLoader.init data batch_size shuffle drop_last).random_index σ))
        a b =
      entry ((GMLPDataLoader.init data batch_size shuffle drop_last).y_batch
        ((GMLPDataLoader.init data batch_size shuffle drop_last).random_index σ))
        b a ∧
    entry ((GMLPDataLoader.init data batch_size shuffle drop_last).y_batch
        ((GMLPDataLoader.init data batch_size shuffle drop_last).random_index σ))
        a a = 1 := by
  constructor
  · rw [y_batch_entry _ _ a b ha hb, y_batch_entry _ _ b a hb ha]
    exact fillDiagonalOne_logicalOrTranspose_symm _ _ _
  · rw [y_batch_entry _ _ a a ha ha]
    exact fillDiagonalOne_diag _ _

/-- Witness for C5 at a concrete 2-node loader with batch size 2. -/
theorem C5_y_batch_symmetric_unit_diagonal_witness :
    0 < ((GMLPDataLoader.init ⟨2, 0, fun _ _ => 0, []⟩ 2 false
        false).random_index 1).length ∧
    1 < ((GMLPDataLoader.init ⟨2, 0, fun _ _ => 0, []⟩ 2 false
        false).random_index 1).length ∧
    (entry ((GMLPDataLoader.init ⟨2, 0, fun _ _ => 0, []⟩ 2 false
        false).y_batch ((GMLPDataLoader.init ⟨2, 0, fun _ _ => 0, []⟩ 2 false
        false).random_index 1)) 0 1 =
      entry ((GMLPDataLoader.init ⟨2, 0, fun _ _ => 0, []⟩ 2 false
        false).y_batch ((GMLPDataLoader.init ⟨2, 0, fun _ _ => 0, []⟩ 2 false
        false).random_index 1)) 1 0 ∧
    entry ((GMLPDataLoader.init ⟨2, 0, fun _ _ => 0, []⟩ 2 false
        false).y_batch ((GMLPDataLoader.init ⟨2, 0, fun _ _ => 0, []⟩ 2 false
        false).random_index 1)) 0 0 = 1) :=
  ⟨by decide, by decide,
   C5_y_batch_symmetric_unit_diagonal ⟨2, 0, fun _ _ => 0, []⟩ 2 false false
     1 0 1 (by decide) (by decide)⟩

/-! ### Loss functions and training loop (src/train_gmlp.py) -/

/-- Hyperparameter `potential_loss_l = 0` (line 24). -/
def potential_loss_l : ℚ := 0

/-- Hyperparameter `potential_loss_k = 900` (line 25). -/
def potential_loss_k : ℚ := 900

/-- Threshold `delta = 0.10` (line 28) used in the accuracy bookkeeping. -/
def delta : ℚ := 1 / 10

/-- The float literal `1e-8` appearing in `NContrastLoss` and
`PotentialLoss`. -/
def small_eps : ℚ := 1 / 100000000

/-- The transcendental primitives of the framework, abstracted: any
functions standing for `torch.exp` and `torch.log`. -/
structure TorchPrims where
  exp : ℚ → ℚ
  log : ℚ → ℚ

/-- `tensor.mean()` of an `r × c` tensor: sum of all entries divided by
the number of entries. -/
def matMean (r c : ℕ) (f : Fin r → Fin c → ℚ) : ℚ :=
  (∑ i, ∑ j, f i j) / (r * c)

/-- `tensor.mean()` of a length-`k` vector. -/
def vecMean (k : ℕ) (f : Fin k → ℚ) : ℚ :=
  (∑ i, f i) / k

/-- `NContrastLoss.forward` (lines 38–46): exponentiate the scores,
row-sum the matching and the total mass, and average the negative log of
their ratio (with the `1e-8` guard). -/
def NContrastLoss (P : TorchPrims) {k : ℕ} (y_hat y : Fin k → Fin k → ℚ)
    (tau : ℚ := 1) : ℚ :=
  let y_hat2 := fun i j => P.exp (y_hat i j * tau)
  let y_match_sum := fun i => ∑ j, y_hat2 i j * y i j
  let y_sum := fun i => ∑ j, y_hat2 i j
  let loss := -(vecMean k (fun i => P.log (y_match_sum i * (y_sum i)⁻¹ + small_eps)))
  loss

/-- `PotentialLoss.forward` (lines 70–78). -/
def PotentialLoss {r c : ℕ} (z_dist y : Fin r → Fin c → ℚ)
    (l : ℚ := potential_loss_l) (k : ℚ := potential_loss_k) : ℚ :=
  let ls := fun i j => (z_dist i j - l) ^ 2
  let ld := fun i j => k * (z_dist i j + small_eps)⁻¹
  let loss := fun i j => y i j * ls i j + (1 - y i j) * ld i j
  matMean r c loss / 2

/-- `F.mse_loss` with the default mean reduction. -/
def mse_loss {r c : ℕ} (y_hat y : Fin r → Fin c → ℚ) : ℚ :=
  matMean r c (fun i j => (y_hat i j - y i j) ^ 2)

/-- C6: `PotentialLoss.forward` returns the mean over all entries of
`y * (z_dist - l)^2 + (1 - y) * k * (z_dist + 1e-8)^(-1)`, divided by 2 —
a quadratic attractive term on `y = 1` pairs plus an inverse-distance
repulsive term on `y = 0` pairs, reduced by mean, with no state and no
iteration (it is a closed-form expression of its arguments). -/
theorem C6_potential_loss_closed_form {r c : ℕ}
    (z_dist y : Fin r → Fin c → ℚ) (l k : ℚ) :
    PotentialLoss z_dist y l k =
      (∑ i : Fin r, ∑ j : Fin c, (y i j * (z_dist i j - l) ^ 2 +
        (1 - y i j) * k * (z_dist i j + 1 / 100000000)⁻¹)) / (r * c) / 2 := by
  simp only [PotentialLoss, matMean, small_eps, mul_assoc]

/-- The external `GMLPModel` as a black box: for a `k × m` feature batch
it produces the predicted `k × k` pairwise score matrix `y_hat` (the
embedding `z` it also returns is unused by the loss computation). -/
def ModelFn : Type :=
  (k m : ℕ) → (Fin k → Fin m → ℚ) → (Fin k → Fin k → ℚ)

/-- One `(x, y)` pair produced by the data loader, as consumed by the
batch loop of `train_model`. -/
structure TrainBatch where
  k : ℕ
  m : ℕ
  x : Fin k → Fin m → ℚ
  y : Fin k → Fin k → ℚ

/-- `(abs(y - y_hat) < delta).float().mean()` (line 117): the fraction of
entries predicted within `delta` of the target. -/
def batch_acc {k : ℕ} (y_hat y : Fin k → Fin k → ℚ) : ℚ :=
  matMean k k (fun i j => if |y i j - y_hat i j| < delta then 1 else 0)

/-- The batch loop of one epoch of `train_model` (lines 96–117): starting
from `train_loss = 0., train_acc = 0.`, for each batch run the model,
compute `loss = criterion(y_hat, y) + F.mse_loss(y_hat, y) * 100` with
`criterion = NContrastLoss()`, and accumulate the loss and the accuracy.
(The optimizer update changes only the external model's parameters, which
the black-box `model` argument holds fixed here; the accumulators
themselves are unaffected by it.) -/
def train_epoch_accum (P : TorchPrims) (model : ModelFn)
    (batches : List TrainBatch) : ℚ × ℚ :=
  batches.foldl
    (fun s b =>
      let y_hat := model b.k b.m b.x
      (s.1 + (NContrastLoss P y_hat b.y + mse_loss y_hat b.y * 100),
       s.2 + batch_acc y_hat b.y))
    (0, 0)

/-- Lines 127–129: the reported per-epoch statistics, the accumulators
divided by `loader_step = len(data_loader)`. -/
def train_epoch_stats (P : TorchPrims) (model : ModelFn)
    (batches : List TrainBatch) : ℚ × ℚ :=
  ((train_epoch_accum P model batches).1 / batches.length,
   (train_epoch_accum P model batches).2 / batches.length)

lemma foldl_pair_add {α : Type} (f g : α → ℚ) (bs : List α) (a c : ℚ) :
    bs.foldl (fun s b => (s.1 + f b, s.2 + g b)) (a, c) =
      (a + (bs.map f).sum, c + (bs.map g).sum) := by
  induction bs generalizing a c with
  | nil => simp
  | cons b bs ih => simp [ih, add_assoc]

lemma train_epoch_accum_eq (P : TorchPrims) (model : ModelFn)
    (batches : List TrainBatch) :
    train_epoch_accum P model batches =
      ((batches.map (fun b => NContrastLoss P (model b.k b.m b.x) b.y +
          mse_loss (model b.k b.m b.x) b.y * 100)).sum,
       (batches.map (fun b => batch_acc (model b.k b.m b.x) b.y)).sum) := by
  unfold train_epoch_accum
  have h := foldl_pair_add
    (fun b : TrainBatch => NContrastLoss P (model b.k b.m b.x) b.y +
      mse_loss (model b.k b.m b.x) b.y * 100)
    (fun b : TrainBatch => batch_acc (model b.k b.m b.x) b.y) batches 0 0
  rw [zero_add, zero_add] at h
  exact h

/-- A concrete instantiation of the transcendental oracle (identity
functions), used only to evaluate the training loop at concrete inputs. -/
def idPrims : TorchPrims := ⟨fun q => q, fun q => q⟩

/-- Concrete 2 × 2 target matrix: the identity adjacency. -/
def demo_y : Fin 2 → Fin 2 → ℚ := fun i j => if i.val = j.val then 1 else 0

/-- A concrete black-box model: predicts 4/5 at cell (0,0), 1 on the rest
of the diagonal, 0 off the diagonal, whatever the input features. -/
def demo_model : ModelFn :=
  fun _ _ _ => fun i j =>
    if i.val = j.val then (if i.val = 0 then 4 / 5 else 1) else 0

/-- The demo model's prediction on a 2-node batch. -/
def demo_y_hat : Fin 2 → Fin 2 → ℚ := demo_model 2 0 (fun _ _ => 0)

/-- A concrete 2-node batch with the identity target. -/
def demo_batch : TrainBatch := ⟨2, 0, fun _ _ => 0, demo_y⟩

/-- Precision of thresholded continuous outputs against a binary target
(the spec's "precision/recall bookkeeping on thresholded continuous
outputs", threshold `θ`): among entries predicted positive (score ≥ `θ`),
the fraction whose target is 1. -/
def specPrecision (θ : ℚ) {k : ℕ} (y_hat y : Fin k → Fin k → ℚ) : ℚ :=
  ((Finset.univ.filter
      (fun p : Fin k × Fin k => θ ≤ y_hat p.1 p.2 ∧ y p.1 p.2 = 1)).card : ℚ) /
    ((Finset.univ.filter
      (fun p : Fin k × Fin k => θ ≤ y_hat p.1 p.2)).card : ℚ)

/-- Recall of thresholded continuous outputs against a binary target:
among entries whose target is 1, the fraction predicted positive. -/
def specRecall (θ : ℚ) {k : ℕ} (y_hat y : Fin k → Fin k → ℚ) : ℚ :=
  ((Finset.univ.filter
      (fun p : Fin k × Fin k => θ ≤ y_hat p.1 p.2 ∧ y p.1 p.2 = 1)).card : ℚ) /
    ((Finset.univ.filter
      (fun p : Fin k × Fin k => y p.1 p.2 = 1)).card : ℚ)

/-- C4 counterexample: at a concrete batch the epoch loop's two
accumulated running statistics are the loss `-1e-8` and the accuracy
`3/4`, while precision and recall of the thresholded outputs (threshold
1/2; any threshold in (0, 1] gives the same values here) are both 1 —
neither accumulator holds a precision or a recall, because `train_model`
(src/train_gmlp.py lines 94–135) computes no such statistic. -/
lemma demo_accum_val :
    train_epoch_accum idPrims demo_model [demo_batch] =
      (-(1 / 100000000 : ℚ), 3 / 4) := by
  show ((0 : ℚ) + (NContrastLoss idPrims demo_y_hat demo_y +
        mse_loss demo_y_hat demo_y * 100),
      (0 : ℚ) + batch_acc demo_y_hat demo_y) = _
  norm_num [NContrastLoss, mse_loss, batch_acc, matMean, vecMean, small_eps,
    idPrims, demo_y_hat, demo_model, demo_y, delta, Fin.sum_univ_two,
    abs_sub_lt_iff, -Finset.sum_boole]

lemma demo_precision_val : specPrecision (1 / 2) demo_y_hat demo_y = 1 := by
  rw [specPrecision]
  rw [Finset.card_filter, Finset.card_filter, Fintype.sum_prod_type]
  norm_num [Fintype.sum_prod_type, Fin.sum_univ_two, demo_y_hat,
    demo_model, demo_y, -Finset.sum_boole]

lemma demo_recall_val : specRecall (1 / 2) demo_y_hat demo_y = 1 := by
  rw [specRecall]
  rw [Finset.card_filter, Finset.card_filter, Fintype.sum_prod_type]
  norm_num [Fintype.sum_prod_type, Fin.sum_univ_two, demo_y_hat,
    demo_model, demo_y, -Finset.sum_boole]

lemma demo_ncontrast_val :
    NContrastLoss idPrims demo_y_hat demo_y = -(1 + 1 / 100000000 : ℚ) := by
  rw [NContrastLoss]
  norm_num [vecMean, small_eps, idPrims, demo_y_hat,
    demo_model, demo_y, Fin.sum_univ_two]

theorem C4_counterexample_no_precision_recall_accumulated :
    (train_epoch_accum idPrims demo_model [demo_batch]).1 ≠
        specPrecision (1 / 2) demo_y_hat demo_y ∧
    (train_epoch_accum idPrims demo_model [demo_batch]).2 ≠
        specPrecision (1 / 2) demo_y_hat demo_y ∧
    (train_epoch_accum idPrims demo_model [demo_batch]).1 ≠
        specRecall (1 / 2) demo_y_hat demo_y ∧
    (train_epoch_accum idPrims demo_model [demo_batch]).2 ≠
        specRecall (1 / 2) demo_y_hat demo_y := by
  rw [demo_accum_val, demo_precision_val, demo_recall_val]
  norm_num

/-- C4 (amended: the loop accumulates running loss and accuracy only; no
precision or recall bookkeeping exists): every epoch of `train_model`
folds over the batches accumulating exactly the sum of the per-batch
losses and the sum of the per-batch accuracies (fraction of entries
within `delta` of the target), and reports each divided by the number of
batches. -/
theorem C4_epoch_accumulates_loss_and_accuracy
    (P : TorchPrims) (model : ModelFn) (batches : List TrainBatch) :
    train_epoch_accum P model batches =
      ((batches.map (fun b => NContrastLoss P (model b.k b.m b.x) b.y +
          mse_loss (model b.k b.m b.x) b.y * 100)).sum,
       (batches.map (fun b => batch_acc (model b.k b.m b.x) b.y)).sum) ∧
    train_epoch_stats P model batches =
      ((train_epoch_accum P model batches).1 / batches.length,
       (train_epoch_accum P model batches).2 / batches.length) :=
  ⟨train_epoch_accum_eq P model batches, rfl⟩

/-- C9: the loss backpropagated and accumulated for every batch is
`NContrastLoss(y_hat, y) + 100 · mse(y_hat, y)`, and it differs from the
contrastive criterion alone (shown at the concrete demo batch, where the
mse term is nonzero). -/
theorem C9_loss_is_ncontrast_plus_100_mse
    (P : TorchPrims) (model : ModelFn) (batches : List TrainBatch) :
    (train_epoch_accum P model batches).1 =
      (batches.map (fun b => NContrastLoss P (model b.k b.m b.x) b.y +
        100 * mse_loss (model b.k b.m b.x) b.y)).sum ∧
    (train_epoch_accum idPrims demo_model [demo_batch]).1 ≠
      NContrastLoss idPrims demo_y_hat demo_y := by
  constructor
  · have hfg : (fun b : TrainBatch =>
        NContrastLoss P (model b.k b.m b.x) b.y +
          mse_loss (model b.k b.m b.x) b.y * 100) =
        (fun b : TrainBatch =>
          NContrastLoss P (model b.k b.m b.x) b.y +
            100 * mse_loss (model b.k b.m b.x) b.y) := by
      funext b
      ring
    rw [train_epoch_accum_eq P model batches, hfg]
  · rw [demo_accum_val, demo_ncontrast_val]
    norm_num

/-! ### Name-to-index lookup in `get_dataset` (C7) -/

/-- `node_names.index(name)` (src/utils.py lines 159 and 161): the first
index of `name` in the list, or a raised `ValueError` (modelled as
`Except.error` carrying the offending name) when absent. -/
def listIndex (names : List String) (name : String) : Except String ℕ :=
  if name ∈ names then Except.ok (names.indexOf name)
  else Except.error name

/-- The lookup comprehension `[node_names.index(i) for i in node1]`:
lookups run left to right and the first failure propagates. -/
def lookupIndices (names : List String) : List String → Except String (List ℕ)
  | [] => Except.ok []
  | x :: xs => do
    let i ← listIndex names x
    let rest ← lookupIndices names xs
    pure (i :: rest)

/-- The interaction part of `get_dataset` (src/utils.py lines 153–166):
look up both endpoint columns of the interactions table in the samples
table's name column, then build the doubled edge index (the `hstack` of
the edges with the reversed edges).  Any failed lookup propagates. -/
def get_dataset_edge_index (node_names node1 node2 : List String) :
    Except String (List (ℕ × ℕ)) := do
  let node1_index ← lookupIndices node_names node1
  let node2_index ← lookupIndices node_names node2
  pure (node1_index.zip node2_index ++ node2_index.zip node1_index)

lemma lookupIndices_error_of_mem (names : List String) (xs : List String)
    (x : String) (hx : x ∈ xs) (hn : x ∉ names) :
    ∃ e, lookupIndices names xs = Except.error e := by
  induction xs with
  | nil => cases hx
  | cons a as ih =>
    rcases List.mem_cons.mp hx with h | h
    · subst h
      refine ⟨x, ?_⟩
      simp only [lookupIndices, listIndex, if_neg hn]
      rfl
    · rcases hli : listIndex names a with e | i
      · exact ⟨e, by simp only [lookupIndices, hli]; rfl⟩
      · obtain ⟨e, he⟩ := ih h
        exact ⟨e, by simp only [lookupIndices, hli, he]; rfl⟩

/-- C7: if the interactions table contains an entity name absent from the
samples table's name column, `get_dataset` fails during the name-to-index
lookup with an error that propagates to the caller, instead of returning
an edge index. -/
theorem C7_missing_name_lookup_error
    (node_names node1 node2 : List String) (x : String)
    (hx : x ∈ node1 ∨ x ∈ node2) (hn : x ∉ node_names) :
    ∃ e, get_dataset_edge_index node_names node1 node2 =
      Except.error e := by
  rcases hx with h1 | h2
  · obtain ⟨e, he⟩ := lookupIndices_error_of_mem node_names node1 x h1 hn
    exact ⟨e, by simp only [get_dataset_edge_index, he]; rfl⟩
  · rcases hli : lookupIndices node_names node1 with e | is
    · exact ⟨e, by simp only [get_dataset_edge_index, hli]; rfl⟩
    · obtain ⟨e, he⟩ := lookupIndices_error_of_mem node_names node2 x h2 hn
      exact ⟨e, by simp only [get_dataset_edge_index, hli, he]; rfl⟩

/-- Witness for C7: the interaction endpoint "b" is missing from the
samples name column ["a"], so the lookup fails. -/
theorem C7_missing_name_lookup_error_witness :
    (("b" ∈ (["b"] : List String) ∨ "b" ∈ ([] : List String)) ∧
      "b" ∉ (["a"] : List String)) ∧
    ∃ e, get_dataset_edge_index ["a"] ["b"] [] = Except.error e :=
  ⟨⟨Or.inl (by simp), by simp⟩,
   C7_missing_name_lookup_error ["a"] ["b"] [] "b" (Or.inl (by simp))
     (by simp)⟩
